import Mathlib

/-!
Verification development for the appknox-mcp secure command-execution
subsystem (src/errors.ts, src/executor.ts).  The TypeScript source is
shallowly embedded: pure helpers become Lean functions, the child-process
lifecycle becomes an explicit event trace processed by a step function, and
thrown errors become values of an error type returned in `Except`/`Option`.
JavaScript strings are modelled by Lean `String`, JavaScript objects that
flow through `JSON.parse` by the `JsonVal` inductive, and JavaScript
truthiness by `jsTruthy`.  `JSON.parse` is modelled on the fragment actually
exercised here: JSON whitespace, `null`/`true`/`false`, integer numerals,
strings with the single-character escapes, arrays and objects (duplicate
keys keep the last binding, as in JavaScript); fractional/exponent numerals
and `\u` escapes are outside the modelled fragment and make the parse fail.
-/

/-- JavaScript value produced by `JSON.parse` (no `undefined`; field lookup
on a missing key is modelled by `JsonVal.null`, which behaves identically
under the truthiness tests this code performs). -/
inductive JsonVal where
  | null : JsonVal
  | bool : Bool → JsonVal
  | num : Int → JsonVal
  | str : String → JsonVal
  | arr : List JsonVal → JsonVal
  | obj : List (String × JsonVal) → JsonVal

/-- JavaScript truthiness of a `JsonVal`. -/
def jsTruthy : JsonVal → Bool
  | .null => false
  | .bool b => b
  | .num n => n != 0
  | .str s => s != ""
  | .arr _ => true
  | .obj _ => true

/-- Field access `v[k]` on a parsed JavaScript value: objects give the last
binding of the key (later duplicate keys win in `JSON.parse`), everything
else (including `null`, whose field access only ever occurs where the
surrounding `try` discards the `TypeError`) gives an absent value. -/
def objGet (v : JsonVal) (k : String) : JsonVal :=
  match v with
  | .obj fs => (List.lookup k fs.reverse).getD .null
  | _ => .null

/-- JSON whitespace characters accepted by `JSON.parse`. -/
def isJsonWs (c : Char) : Bool :=
  c == ' ' || c == '\t' || c == '\n' || c == '\r'

def skipWs (cs : List Char) : List Char :=
  cs.dropWhile isJsonWs

/-- String-literal body parser: consumes up to the closing quote, handling
the one-character escapes; `\u` escapes and raw control characters are
outside the modelled fragment. -/
def strTail : List Char → String → Option (String × List Char)
  | [], _ => none
  | '"' :: r, acc => some (acc, r)
  | '\\' :: e :: r, acc =>
    if e = '"' then strTail r (acc.push '"')
    else if e = '\\' then strTail r (acc.push '\\')
    else if e = '/' then strTail r (acc.push '/')
    else if e = 'b' then strTail r (acc.push (Char.ofNat 8))
    else if e = 'f' then strTail r (acc.push (Char.ofNat 12))
    else if e = 'n' then strTail r (acc.push '\n')
    else if e = 'r' then strTail r (acc.push '\r')
    else if e = 't' then strTail r (acc.push '\t')
    else none
  | c :: r, acc =>
    if c.toNat < 32 then none else strTail r (acc.push c)

/-- Parses a JSON string literal (expects the opening quote). -/
def parseStringLit : List Char → Option (String × List Char)
  | '"' :: r => strTail r ""
  | _ => none

def isDigitChar (c : Char) : Bool := '0' ≤ c && c ≤ '9'

def digitsToNat (ds : List Char) : Nat :=
  ds.foldl (fun acc c => acc * 10 + (c.toNat - '0'.toNat)) 0

/-- Parses an integer JSON numeral (no leading zeros, optional minus). -/
def parseNum (cs : List Char) : Option (JsonVal × List Char) :=
  let core : List Char → Option (Int × List Char) := fun cs0 =>
    match cs0 with
    | '0' :: r =>
      match r with
      | c :: _ => if isDigitChar c then none else some (0, r)
      | [] => some (0, [])
    | c :: _ =>
      if isDigitChar c then
        let ds := cs0.takeWhile isDigitChar
        some ((digitsToNat ds : Int), cs0.dropWhile isDigitChar)
      else none
    | [] => none
  match cs with
  | '-' :: r =>
    match core r with
    | some (n, rest) => some (.num (-n), rest)
    | none => none
  | _ =>
    match core cs with
    | some (n, rest) => some (.num n, rest)
    | none => none

/-- Modes of the fuelled JSON parser: parse one value, parse the tail of an
array (after at least one element is pending), parse the members of an
object. -/
inductive PIn where
  | pv : List Char → PIn
  | parr : List Char → List JsonVal → PIn
  | pobj : List Char → List (String × JsonVal) → PIn

/-- Fuelled recursive core of the `JSON.parse` model.  Fuel bounds the
recursion depth; `jsonParseStr` supplies enough fuel for any input. -/
def pRun : Nat → PIn → Option (JsonVal × List Char)
  | 0, _ => none
  | fuel + 1, .pv cs =>
    match cs with
    | 'n' :: 'u' :: 'l' :: 'l' :: r => some (.null, r)
    | 't' :: 'r' :: 'u' :: 'e' :: r => some (.bool true, r)
    | 'f' :: 'a' :: 'l' :: 's' :: 'e' :: r => some (.bool false, r)
    | '"' :: r =>
      match strTail r "" with
      | some (s, rest) => some (.str s, rest)
      | none => none
    | '[' :: r =>
      match skipWs r with
      | ']' :: r2 => some (.arr [], r2)
      | r2 => pRun fuel (.parr r2 [])
    | '{' :: r =>
      match skipWs r with
      | '}' :: r2 => some (.obj [], r2)
      | r2 => pRun fuel (.pobj r2 [])
    | _ => parseNum cs
  | fuel + 1, .parr cs acc =>
    match pRun fuel (.pv cs) with
    | some (v, rest) =>
      match skipWs rest with
      | ',' :: r2 => pRun fuel (.parr (skipWs r2) (acc ++ [v]))
      | ']' :: r2 => some (.arr (acc ++ [v]), r2)
      | _ => none
    | none => none
  | fuel + 1, .pobj cs acc =>
    match parseStringLit cs with
    | some (k, rest) =>
      match skipWs rest with
      | ':' :: r2 =>
        match pRun fuel (.pv (skipWs r2)) with
        | some (v, rest2) =>
          match skipWs rest2 with
          | ',' :: r3 => pRun fuel (.pobj (skipWs r3) (acc ++ [(k, v)]))
          | '}' :: r3 => some (.obj (acc ++ [(k, v)]), r3)
          | _ => none
        | none => none
      | _ => none
    | none => none

/-- Model of `JSON.parse(s)`: `some v` when the parse succeeds, `none` when
`JSON.parse` throws. -/
def jsonParseStr (s : String) : Option JsonVal :=
  match pRun (2 * s.length + 4) (.pv (skipWs s.toList)) with
  | some (v, rest) => if (skipWs rest).isEmpty then some v else none
  | none => none

/-- Membership of a substring at some position, on character lists. -/
def containsSubList (pat : List Char) : List Char → Bool
  | [] => pat.isEmpty
  | c :: rest => List.isPrefixOf pat (c :: rest) || containsSubList pat rest

/-- Substring test: model of JavaScript `String.prototype.includes`. -/
def containsSub (s pat : String) : Bool :=
  containsSubList pat.toList s.toList

/-- Model of JavaScript `String.prototype.startsWith`. -/
def jsStartsWith (s pre : String) : Bool :=
  List.isPrefixOf pre.toList s.toList

/-- Whitespace trimmed by JavaScript `String.prototype.trim` (ASCII part of
the set; the Unicode space characters are outside the modelled fragment). -/
def jsWsChar (c : Char) : Bool :=
  c == ' ' || c == '\t' || c == '\n' || c == '\r' || c == '\x0b' || c == '\x0c'

/-- Model of JavaScript `String.prototype.trim`. -/
def jsTrim (s : String) : String :=
  String.mk (((s.toList.dropWhile jsWsChar).reverse.dropWhile jsWsChar).reverse)

/-- List-of-strings join with a separator (model of `Array.join` on strings,
also used for the formatted message lists). -/
def joinSep (sep : String) : List String → String
  | [] => ""
  | [x] => x
  | x :: y :: rest => x ++ sep ++ joinSep sep (y :: rest)

/-- Model of JavaScript string conversion of a parsed value, as performed by
template interpolation and by `Array.prototype.join`.  The flag is true when
the conversion happens inside a `join`, where `null` renders as the empty
string instead of "null".  Fuel bounds the nesting depth of arrays; callers
supply fuel at least the nesting depth (e.g. the length of the source text
the value was parsed from). -/
def jsToStringF : Nat → Bool → JsonVal → String
  | _, true, .null => ""
  | _, false, .null => "null"
  | _, _, .bool b => cond b "true" "false"
  | _, _, .num n => toString n
  | _, _, .str s => s
  | _, _, .obj _ => "[object Object]"
  | 0, _, .arr _ => ""
  | fuel + 1, _, .arr xs => joinSep "," (xs.map (jsToStringF fuel true))

/-! ## errors.ts: the typed error taxonomy -/

/-- Error classes of errors.ts.  Each constructor mirrors one class;
constructor arguments mirror the constructor parameters
(`authenticationErr none` is `new AuthenticationError()` with the default
message). -/
inductive AppknoxMCPError where
  | cliNotFound : AppknoxMCPError
  | authenticationErr : Option String → AppknoxMCPError
  | validationErr : String → AppknoxMCPError
  | commandTimeout : Nat → AppknoxMCPError
  | commandExecution : String → Option Int → AppknoxMCPError
  | filePathErr : String → AppknoxMCPError
deriving DecidableEq

/-- The `message` property of each error class, as set by its constructor. -/
def AppknoxMCPError.message : AppknoxMCPError → String
  | .cliNotFound =>
    "Appknox CLI not found. Please install it first: https://github.com/appknox/appknox-go#installation"
  | .authenticationErr none =>
    "Authentication failed. Please set APPKNOX_ACCESS_TOKEN environment variable or configure it using: appknox init"
  | .authenticationErr (some m) => m
  | .validationErr m => "Validation error: " ++ m
  | .commandTimeout ms => "Command timed out after " ++ toString ms ++ "ms"
  | .commandExecution m _ => m
  | .filePathErr m => m

/-- One element of the Zod issue array, formatted as in `formatZodError`:
`none` models a `TypeError` thrown inside the `map` callback (element is
`null`, or its `path` field is present but is not an array), which the
surrounding `try` turns into returning the raw message. -/
def zodMessage (fuel : Nat) (e : JsonVal) : Option String :=
  match e with
  | .null => none
  | _ =>
    let fieldR : Option String :=
      match objGet e "path" with
      | .null => some "unknown field"
      | .arr ps =>
        let joined := joinSep "." (ps.map (jsToStringF fuel true))
        some (if joined = "" then "unknown field" else joined)
      | _ => none
    match fieldR with
    | none => none
    | some field =>
      let msg := objGet e "message"
      let msgS := if jsTruthy msg then jsToStringF fuel false msg else "invalid value"
      let expv := objGet e "expected"
      let expS :=
        if jsTruthy expv then " (expected " ++ jsToStringF fuel false expv ++ ")" else ""
      some (field ++ ": " ++ msgS ++ expS)

def zodMessages (fuel : Nat) : List JsonVal → Option (List String)
  | [] => some []
  | e :: rest =>
    match zodMessage fuel e with
    | some m => (zodMessages fuel rest).map (fun ms => m :: ms)
    | none => none

/-- Model of `formatZodError` (errors.ts): parse the message as JSON; if it
is an array, format each element as `"<field>: <message> (expected <type>)"`
with `"unknown field"` / `"invalid value"` fallbacks; any parse failure or
`TypeError` during formatting returns the raw message. -/
def formatZodError (errorMessage : String) : String :=
  match jsonParseStr errorMessage with
  | some (.arr xs) =>
    match zodMessages (errorMessage.length + 1) xs with
    | some msgs => "Missing or invalid arguments: " ++ joinSep ", " msgs
    | none => errorMessage
  | some _ => errorMessage
  | none => errorMessage

/-- Input of `classifyError`: either an error that is already one of the
typed errors of this system (the `instanceof AppknoxMCPError` case), or any
other thrown value, represented by the string `classifyError` derives from
it (`error.message` for `Error` instances, `String(error)` otherwise). -/
inductive RawError where
  | typed : AppknoxMCPError → RawError
  | plain : String → RawError
deriving DecidableEq

def RawError.messageOf : RawError → String
  | .typed e => e.message
  | .plain m => m

/-- Model of `classifyError` (errors.ts), translated branch by branch. -/
def classifyError (err : RawError) : AppknoxMCPError :=
  let errorMessage := err.messageOf
  if jsStartsWith errorMessage "[" && containsSub errorMessage "\"code\"" then
    .validationErr (formatZodError errorMessage)
  else if containsSub errorMessage "ENOENT" || containsSub errorMessage "not found" then
    .cliNotFound
  else if containsSub errorMessage "401" || containsSub errorMessage "Unauthorized" ||
      containsSub errorMessage "Authentication" || containsSub errorMessage "Invalid token" then
    .authenticationErr none
  else if containsSub errorMessage "Invalid" || containsSub errorMessage "must be" then
    .validationErr errorMessage
  else if containsSub errorMessage "timed out" then
    .commandTimeout 0
  else
    match err with
    | .typed e => e
    | .plain m => .commandExecution m none

/-! ## The classifier as claimed: an ordered first-match rule list -/

/-- One rule of the classifier precedence list: a guard and the error it
builds when the guard is the first to match. -/
structure ClassifierRule where
  applies : RawError → Bool
  result : RawError → AppknoxMCPError

/-- First-match-wins application of a precedence list; the final fallback is
the generic `CommandExecutionError` over the raw message. -/
def applyRules : List ClassifierRule → RawError → AppknoxMCPError
  | [], e => .commandExecution e.messageOf none
  | r :: rs, e => if r.applies e then r.result e else applyRules rs e

/-- Whether a string parses as a JSON array one of whose elements is an
object with a "code" field (the literal reading of the claim's rule 1
guard). -/
def zodParsesWithCode (m : String) : Bool :=
  match jsonParseStr m with
  | some (.arr xs) =>
    xs.any (fun x =>
      match x with
      | .obj fs => (fs.map Prod.fst).contains "code"
      | _ => false)
  | _ => false

/-- Per-element formatting exactly as the claim words it, total (the claim
mentions no exception path). -/
def claimFormatElem (fuel : Nat) (e : JsonVal) : String :=
  let field :=
    match objGet e "path" with
    | .arr ps =>
      let joined := joinSep "." (ps.map (jsToStringF fuel true))
      if joined = "" then "unknown field" else joined
    | _ => "unknown field"
  let msg := objGet e "message"
  let msgS := if jsTruthy msg then jsToStringF fuel false msg else "invalid value"
  let expv := objGet e "expected"
  let expS := if jsTruthy expv then " (expected " ++ jsToStringF fuel false expv ++ ")" else ""
  field ++ ": " ++ msgS ++ expS

/-- Rule 2 of the claim: CLINotFound on "ENOENT"/"not found". -/
def ruleCliNotFound : ClassifierRule :=
  ⟨fun e => containsSub e.messageOf "ENOENT" || containsSub e.messageOf "not found",
   fun _ => .cliNotFound⟩

/-- Rule 3 of the claim: Authentication on its message patterns. -/
def ruleAuth : ClassifierRule :=
  ⟨fun e => containsSub e.messageOf "401" || containsSub e.messageOf "Unauthorized" ||
      containsSub e.messageOf "Authentication" || containsSub e.messageOf "Invalid token",
   fun _ => .authenticationErr none⟩

/-- Rule 4 of the claim: Validation on "Invalid"/"must be", raw message
passed through. -/
def ruleValidation : ClassifierRule :=
  ⟨fun e => containsSub e.messageOf "Invalid" || containsSub e.messageOf "must be",
   fun e => .validationErr e.messageOf⟩

/-- Rule 5 of the claim: Timeout on "timed out" with a zero duration
marker. -/
def ruleTimeout : ClassifierRule :=
  ⟨fun e => containsSub e.messageOf "timed out", fun _ => .commandTimeout 0⟩

/-- Rule 6 of the claim: pass an already-typed error through unchanged. -/
def ruleTyped : ClassifierRule :=
  ⟨fun e => match e with | .typed _ => true | .plain _ => false,
   fun e => match e with | .typed t => t | .plain m => .commandExecution m none⟩

/-- Rule 1 as the claim words it: the guard is that the raw message parses
as a JSON array containing a "code" field. -/
def ruleZodClaim : ClassifierRule :=
  ⟨fun e => zodParsesWithCode e.messageOf,
   fun e =>
     match jsonParseStr e.messageOf with
     | some (.arr xs) =>
       .validationErr ("Missing or invalid arguments: " ++
         joinSep ", " (xs.map (claimFormatElem (e.messageOf.length + 1))))
     | _ => .validationErr e.messageOf⟩

/-- Rule 1 as the code implements it: the guard is that the raw message
starts with "[" and contains the substring `"code"`; the JSON parse only
affects the formatting, falling back to the raw message when it fails. -/
def ruleZodAmended : ClassifierRule :=
  ⟨fun e => jsStartsWith e.messageOf "[" && containsSub e.messageOf "\"code\"",
   fun e => .validationErr (formatZodError e.messageOf)⟩

/-- Classifier exactly as the claim states it (rule 1 guarded by actual
JSON parsing). -/
def classifyErrorSpecClaim (e : RawError) : AppknoxMCPError :=
  applyRules [ruleZodClaim, ruleCliNotFound, ruleAuth, ruleValidation, ruleTimeout, ruleTyped] e

/-- Classifier as the amended claim states it (rule 1 guarded by the
startsWith/includes test; everything else identical). -/
def classifyErrorSpecAmended (e : RawError) : AppknoxMCPError :=
  applyRules [ruleZodAmended, ruleCliNotFound, ruleAuth, ruleValidation, ruleTimeout, ruleTyped] e

example : classifyError (.plain " [\x7b\"code\":1\x7d]") =
    .commandExecution " [\x7b\"code\":1\x7d]" none := by rfl

example : classifyErrorSpecClaim (.plain " [\x7b\"code\":1\x7d]") =
    .validationErr "Missing or invalid arguments: unknown field: invalid value" := by rfl

example : ∀ e, classifyError e = classifyErrorSpecAmended e := by
  intro e
  cases e <;> rfl

/-! ## executor.ts: output sanitizer -/

/-- Hexadecimal characters matched by the case-insensitive class
`[a-f0-9]` of the token-redaction regex. -/
def isHexChar (c : Char) : Bool :=
  ('0' ≤ c && c ≤ '9') || ('a' ≤ c && c ≤ 'f') || ('A' ≤ c && c ≤ 'F')

/-- Flushes an accumulated (reversed) run of hexadecimal characters: runs of
32 or more are replaced by the fixed redaction token, exactly as the global
greedy regex `[a-f0-9]{32,}` replaces each maximal long run. -/
def flushHexRun (acc : List Char) : List Char :=
  if 32 ≤ acc.length then "[REDACTED]".toList else acc.reverse

/-- Scanner for the token-redaction regex replacement; `acc` holds the
current run of hexadecimal characters in reverse. -/
def redactGo : List Char → List Char → List Char
  | acc, [] => flushHexRun acc
  | acc, c :: rest =>
    if isHexChar c then redactGo (c :: acc) rest
    else flushHexRun acc ++ c :: redactGo [] rest

/-- Fuelled scanner for the home-directory regex replacements
(`/Users/[^/]+`, `/home/[^/]+`, `C:\Users\[^\\]+`): wherever the literal
prefix `pat` is followed by at least one character other than `sep`, that
name run is replaced by `[USER]`; otherwise the scan advances one character,
as the regex engine does.  Fuel at least the list length makes the zero-fuel
branch unreachable. -/
def replaceUserDirF (pat : List Char) (sep : Char) : Nat → List Char → List Char
  | 0, cs => cs
  | _ + 1, [] => []
  | fuel + 1, c :: rest =>
    if List.isPrefixOf pat (c :: rest) then
      let after := (c :: rest).drop pat.length
      let name := after.takeWhile (fun x => x != sep)
      if name.length > 0 then
        pat ++ "[USER]".toList ++ replaceUserDirF pat sep fuel (after.dropWhile (fun x => x != sep))
      else c :: replaceUserDirF pat sep fuel rest
    else c :: replaceUserDirF pat sep fuel rest

def replaceUserDir (pat : List Char) (sep : Char) (cs : List Char) : List Char :=
  replaceUserDirF pat sep cs.length cs

/-- Model of `sanitizeError` (executor.ts): redact 32-plus-character
hexadecimal runs, then the three user-directory patterns, in source
order. -/
def sanitizeError (error : String) : String :=
  let s1 := redactGo [] error.toList
  let s2 := replaceUserDir "/Users/".toList '/' s1
  let s3 := replaceUserDir "/home/".toList '/' s2
  let s4 := replaceUserDir "C:\\Users\\".toList '\\' s3
  String.mk s4

example :
    sanitizeError "tok 0123456789abcdef0123456789ABCDEF0123456789 end" =
    "tok [REDACTED] end" := by rfl

example : sanitizeError "/Users/alice/w.apk" = "/Users/[USER]/w.apk" := by rfl

example : sanitizeError "/home/bob/x" = "/home/[USER]/x" := by rfl

example : sanitizeError "C:\\Users\\eve\\f" = "C:\\Users\\[USER]\\f" := by rfl

example : sanitizeError "0123456789abcdef0123456789abcde" =
    "0123456789abcdef0123456789abcde" := by rfl

/-! ## executor.ts: input validators -/

/-- Model of `validateFilePath` (executor.ts): rejects a parent-directory
traversal token, a null byte, or a length over 4096, with the source's
`FilePathError` messages, in source order. -/
def validateFilePath (filePath : String) : Except AppknoxMCPError Unit :=
  if containsSub filePath ".." then
    .error (.filePathErr "Invalid file path: directory traversal not allowed")
  else if containsSub filePath "\x00" then
    .error (.filePathErr "Invalid file path: null bytes not allowed")
  else if filePath.length > 4096 then
    .error (.filePathErr "Invalid file path: path too long")
  else .ok ()

/-- The value of `Number.MAX_SAFE_INTEGER`. -/
def maxSafeInteger : Rat := 9007199254740991

/-- Model of `validateNumericId` (executor.ts).  JavaScript numbers are
modelled by rationals (every finite double is rational);
`Number.isInteger` becomes `den = 1`. -/
def validateNumericId (id : Rat) (fieldName : String) : Except AppknoxMCPError Unit :=
  if ¬ id.den = 1 ∨ id ≤ 0 ∨ maxSafeInteger < id then
    .error (.filePathErr ("Invalid " ++ fieldName ++ ": must be a positive integer"))
  else .ok ()

/-- Model of `validateRiskThreshold` (executor.ts). -/
def validateRiskThreshold (threshold : String) : Except AppknoxMCPError Unit :=
  if ["low", "medium", "high", "critical"].contains threshold.toLower then .ok ()
  else .error (.filePathErr ("Invalid risk threshold: must be one of low, medium, high, critical"))

/-- The path-likeness test of the `args.forEach` loop in
`executeAppknoxCommand`: validation applies exactly to arguments beginning
with "/", "./" or "../". -/
def isPathArg (a : String) : Bool :=
  jsStartsWith a "/" || jsStartsWith a "./" || jsStartsWith a "../"

/-- The `args.forEach` validation loop of `executeAppknoxCommand`: the first
path-like argument that fails `validateFilePath` throws. -/
def validateArgs : List String → Except AppknoxMCPError Unit
  | [] => .ok ()
  | a :: rest =>
    if isPathArg a then
      match validateFilePath a with
      | .error e => .error e
      | .ok _ => validateArgs rest
    else validateArgs rest

/-! ## executor.ts: credential resolution -/

/-- A process environment: an association list whose later bindings win
(modelling repeated JavaScript property assignment).  Values are `JsonVal`
because the token read from the config file is injected as parsed; ordinary
environment variables are `.str` values. -/
abbrev Env : Type := List (String × JsonVal)

/-- Reads a key from an environment; `none` models `undefined`. -/
def envGet : Env → String → Option JsonVal
  | [], _ => none
  | (k0, v0) :: rest, k =>
    match envGet rest k with
    | some v => some v
    | none => if k0 = k then some v0 else none

/-- JavaScript truthiness of a possibly-undefined value. -/
def jsTruthyOpt : Option JsonVal → Bool
  | none => false
  | some v => jsTruthy v

/-- State of the Appknox config file at `<home>/.config/appknox.json`:
absent (ENOENT), unreadable for another reason, or readable with the given
text content. -/
inductive ConfigFile where
  | absent : ConfigFile
  | unreadable : ConfigFile
  | content : String → ConfigFile

/-- Model of `getAccessTokenFromConfig` (executor.ts): read and `JSON.parse`
the config file and evaluate `config['access-token'] ||
config['access_token'] || null`; every failure (missing file, read error,
parse error, or a `TypeError` from indexing a `null` config) is caught and
becomes `null`. -/
def getAccessTokenFromConfig : ConfigFile → JsonVal
  | .absent => .null
  | .unreadable => .null
  | .content s =>
    match jsonParseStr s with
    | none => .null
    | some config =>
      let t1 := objGet config "access-token"
      if jsTruthy t1 then t1
      else
        let t2 := objGet config "access_token"
        if jsTruthy t2 then t2 else .null

/-- Model of `prepareEnvironment` (executor.ts): start from the process
environment, apply caller overrides on top, and if the access token is
still falsy fall back to the config file, injecting the config token only
when it is truthy. -/
def prepareEnvironment (baseEnv : Env) (userEnv : Option Env) (cfg : ConfigFile) : Env :=
  let env : Env := baseEnv ++ userEnv.getD []
  if jsTruthyOpt (envGet env "APPKNOX_ACCESS_TOKEN") then env
  else
    let configToken := getAccessTokenFromConfig cfg
    if jsTruthy configToken then env ++ [("APPKNOX_ACCESS_TOKEN", configToken)] else env

/-! ## executor.ts: the child-process lifecycle

The promise body of `executeAppknoxCommand` is driven by external events: the
timeout timer firing, a process-level `error` event, and the `close` event.
A request is modelled by the ordered trace of those events; the handlers
become a step function over an explicit state holding the `killed` latch,
whether `kill` was invoked, and the ordered list of settlement attempts
(calls to `resolve`/`reject`). -/

/-- Result object resolved by `executeAppknoxCommand`. -/
structure CommandResult where
  stdout : String
  stderr : String
  exitCode : Int
deriving DecidableEq

/-- Options argument of the executors. -/
structure ExecutionOptions where
  timeout : Option Nat
  env : Option Env

/-- Effective timeout: the destructuring default of 120000 ms applies when
the option is absent. -/
def effTimeout (options : ExecutionOptions) : Nat :=
  options.timeout.getD 120000

/-- External events that can reach the promise body after spawn. -/
inductive ProcEvent where
  | timeout : ProcEvent
  | errEv : Option String → String → ProcEvent
  | closeEv : String → String → Option Int → ProcEvent
deriving DecidableEq

/-- One settlement attempt: a call to `resolve` or to `reject`. -/
inductive Settlement where
  | resolved : CommandResult → Settlement
  | rejected : AppknoxMCPError → Settlement
deriving DecidableEq

/-- Handler state inside the promise body. -/
structure ExecState where
  killed : Bool
  killSent : Bool
  settlements : List Settlement
deriving DecidableEq

/-- The three event handlers of `executeAppknoxCommand`, translated from the
source: the timeout callback sets the `killed` latch, signals the process
and rejects; the `error` and `close` handlers return early when the latch is
set, otherwise reject (CLINotFound on ENOENT, sanitized ExecutionFailure
otherwise) or resolve the assembled result (trimmed stdout,
sanitized trimmed stderr, null exit code mapped to 0). -/
def step (tms : Nat) (s : ExecState) : ProcEvent → ExecState
  | .timeout =>
    ⟨true, true, s.settlements ++ [.rejected (.commandTimeout tms)]⟩
  | .errEv code msg =>
    if s.killed then s
    else
      ⟨s.killed, s.killSent,
        s.settlements ++
          [.rejected
            (if code = some "ENOENT" then .cliNotFound
             else .commandExecution (sanitizeError msg) none)]⟩
  | .closeEv out err ec =>
    if s.killed then s
    else
      ⟨s.killed, s.killSent,
        s.settlements ++ [.resolved ⟨jsTrim out, sanitizeError (jsTrim err), ec.getD 0⟩]⟩

/-- Runs a request's event trace through the handlers. -/
def runTrace (tms : Nat) (tr : List ProcEvent) : ExecState :=
  tr.foldl (step tms) ⟨false, false, []⟩

def isCloseEv : ProcEvent → Bool
  | .closeEv _ _ _ => true
  | _ => false

def isErrEv : ProcEvent → Bool
  | .errEv _ _ => true
  | _ => false

/-- Timer discipline along a trace: the timeout event can only occur while
the timer is alive — armed at spawn only when `timeoutMs > 0`, disarmed by
`clearTimeout` in the `error` and `close` handlers, and consumed when it
fires. -/
def timerGo : Bool → List ProcEvent → Bool
  | _, [] => true
  | alive, .timeout :: rest => alive && timerGo false rest
  | _, _ :: rest => timerGo false rest

/-- Traces that can actually occur for one request: at most one `close`, at
most one `error`, and the timer discipline. -/
def ValidTrace (tms : Nat) (tr : List ProcEvent) : Prop :=
  tr.countP isCloseEv ≤ 1 ∧ tr.countP isErrEv ≤ 1 ∧ timerGo (decide (0 < tms)) tr = true

/-- Promise semantics: the settlement that wins is the first one. -/
def settleOf : List Settlement → Option (Except AppknoxMCPError CommandResult)
  | [] => none
  | .resolved r :: _ => some (.ok r)
  | .rejected e :: _ => some (.error e)

/-- The world a request executes against: the process environment at call
time, the state of the config file, and the trace of process events the
spawned child would produce. -/
structure World where
  baseEnv : Env
  config : ConfigFile
  trace : List ProcEvent

/-- Outcome of one request: whether a child process was spawned, and the
settlement reaching the caller (`none` when the promise never settles). -/
structure ExecOutcome where
  spawned : Bool
  settled : Option (Except AppknoxMCPError CommandResult)

/-- Model of `executeAppknoxCommand` (executor.ts): validate path-like
arguments, resolve the environment, fail with `AuthenticationError` when no
truthy access token resulted, otherwise spawn and settle according to the
event trace.  The `command` string is passed to the child verbatim and does
not influence the modelled control flow. -/
def executeAppknoxCommand (_command : String) (args : List String)
    (options : ExecutionOptions) (w : World) : ExecOutcome :=
  match validateArgs args with
  | .error e => ⟨false, some (.error e)⟩
  | .ok _ =>
    let env := prepareEnvironment w.baseEnv options.env w.config
    if jsTruthyOpt (envGet env "APPKNOX_ACCESS_TOKEN") then
      ⟨true, settleOf (runTrace (effTimeout options) w.trace).settlements⟩
    else ⟨false, some (.error (.authenticationErr none))⟩

/-- The `errorMessage` local of `executeAppknoxCommandStrict`:
`result.stderr || result.stdout || 'Command failed'`. -/
def strictErrorMessage (result : CommandResult) : String :=
  if result.stderr ≠ "" then result.stderr
  else if result.stdout ≠ "" then result.stdout
  else "Command failed"

/-- Model of `executeAppknoxCommandStrict` (executor.ts): run the basic
executor; on a result with non-zero exit code, rethrow —
`AuthenticationError` when `result.stderr || result.stdout || 'Command
failed'` contains "401" or "Unauthorized", `CommandExecutionError` carrying
the exit code otherwise; on exit code 0 return the stdout string. -/
def executeAppknoxCommandStrict (command : String) (args : List String)
    (options : ExecutionOptions) (w : World) : Bool × Option (Except AppknoxMCPError String) :=
  let o := executeAppknoxCommand command args options w
  (o.spawned,
    match o.settled with
    | none => none
    | some (.error e) => some (.error e)
    | some (.ok result) =>
      if result.exitCode ≠ 0 then
        let errorMessage := strictErrorMessage result
        if containsSub errorMessage "401" || containsSub errorMessage "Unauthorized" then
          some (.error (.authenticationErr none))
        else
          some (.error (.commandExecution ("Appknox CLI error: " ++ errorMessage)
            (some result.exitCode)))
      else some (.ok result.stdout))

/-! ## Helper lemmas -/

/-- Reading an appended environment: the later (right) bindings win. -/
theorem envGet_append (e1 e2 : Env) (k : String) :
    envGet (e1 ++ e2) k =
      match envGet e2 k with
      | some v => some v
      | none => envGet e1 k := by
  induction e1 with
  | nil =>
    cases h : envGet e2 k <;> simp [envGet, h]
  | cons kv t ih =>
    obtain ⟨k0, v0⟩ := kv
    rw [show envGet ((k0, v0) :: t ++ e2) k =
        (match envGet (t ++ e2) k with
         | some w => some w
         | none => if k0 = k then some v0 else none) from rfl]
    rw [ih]
    cases h : envGet e2 k with
    | none => rfl
    | some v => simp

/-- Reading back a binding just appended at the end. -/
theorem envGet_append_single (e : Env) (k : String) (v : JsonVal) :
    envGet (e ++ [(k, v)]) k = some v := by
  rw [envGet_append]
  simp [envGet]

/-- `validateFilePath` succeeds exactly on paths with no traversal token, no
null byte, and length at most 4096; every failure is a `FilePathError`. -/
theorem validateFilePath_ok_iff (p : String) :
    (validateFilePath p = .ok () ↔
      (containsSub p ".." = false ∧ containsSub p " " = false ∧ p.length ≤ 4096)) ∧
    (validateFilePath p ≠ .ok () → ∃ m, validateFilePath p = .error (.filePathErr m)) := by
  unfold validateFilePath
  constructor
  · constructor
    · intro h
      by_cases h1 : containsSub p ".." = true
      · simp [h1] at h
      · by_cases h2 : containsSub p " " = true
        · simp [h1, h2] at h
        · by_cases h3 : p.length > 4096
          · simp [h1, h2, h3] at h
          · exact ⟨Bool.eq_false_iff.mpr h1, Bool.eq_false_iff.mpr h2, by omega⟩
    · rintro ⟨h1, h2, h3⟩
      have h3a : ¬ p.length > 4096 := by omega
      simp [h1, h2, h3a]
  · intro h
    by_cases h1 : containsSub p ".." = true
    · exact ⟨"Invalid file path: directory traversal not allowed", by simp [h1]⟩
    · by_cases h2 : containsSub p " " = true
      · exact ⟨"Invalid file path: null bytes not allowed", by simp [h1, h2]⟩
      · by_cases h3 : p.length > 4096
        · exact ⟨"Invalid file path: path too long", by simp [h1, h2, h3]⟩
        · exact absurd (by simp [h1, h2, h3]) h

/-- When every path-like argument is valid, the validation loop succeeds. -/
theorem validateArgs_ok (args : List String)
    (h : ∀ a, a ∈ args → isPathArg a = true → validateFilePath a = .ok ()) :
    validateArgs args = .ok () := by
  induction args with
  | nil => rfl
  | cons a rest ih =>
    unfold validateArgs
    by_cases hpa : isPathArg a = true
    · rw [if_pos hpa, h a (List.mem_cons_self a rest) hpa]
      exact ih fun b hb hpb => h b (List.mem_cons_of_mem a hb) hpb
    · rw [if_neg hpa]
      exact ih fun b hb hpb => h b (List.mem_cons_of_mem a hb) hpb

/-- When some path-like argument is invalid, the validation loop throws a
`FilePathError`. -/
theorem validateArgs_bad (args : List String)
    (h : ∃ a, a ∈ args ∧ isPathArg a = true ∧ validateFilePath a ≠ .ok ()) :
    ∃ m, validateArgs args = .error (.filePathErr m) := by
  induction args with
  | nil => obtain ⟨a, ha, -, -⟩ := h; cases ha
  | cons b rest ih =>
    obtain ⟨a, ha, hpa, hbad⟩ := h
    unfold validateArgs
    by_cases hpb : isPathArg b = true
    · rw [if_pos hpb]
      cases hb : validateFilePath b with
      | error e =>
        obtain ⟨m, hm⟩ := (validateFilePath_ok_iff b).2 (by simp [hb])
        rw [hb] at hm
        injection hm with hme
        exact ⟨m, by rw [hme]⟩
      | ok u =>
        cases u
        rcases List.mem_cons.mp ha with rfl | hmem
        · exact absurd hb hbad
        · exact ih ⟨a, hmem, hpa, hbad⟩
    · rw [if_neg hpb]
      rcases List.mem_cons.mp ha with rfl | hmem
      · exact absurd hpa hpb
      · exact ih ⟨a, hmem, hpa, hbad⟩

/-- After the timer has fired or been cleared, it can never fire again. -/
theorem timerGo_false_no_timeout (tr : List ProcEvent)
    (h : timerGo false tr = true) : ProcEvent.timeout ∉ tr := by
  induction tr with
  | nil => simp
  | cons e rest ih =>
    intro hmem
    cases e with
    | timeout => simp [timerGo] at h
    | errEv c m =>
      rcases List.mem_cons.mp hmem with heq | hmem2
      · exact absurd heq.symm (by simp)
      · exact ih (by simpa [timerGo] using h) hmem2
    | closeEv o s ec =>
      rcases List.mem_cons.mp hmem with heq | hmem2
      · exact absurd heq.symm (by simp)
      · exact ih (by simpa [timerGo] using h) hmem2

/-- Once the killed latch is set, later error and close events leave the
state untouched. -/
theorem foldl_step_killed (tms : Nat) (tr : List ProcEvent) :
    ∀ s : ExecState, s.killed = true → ProcEvent.timeout ∉ tr →
      List.foldl (step tms) s tr = s := by
  induction tr with
  | nil => intro s _ _; rfl
  | cons e rest ih =>
    intro s hk hnm
    have hne : ProcEvent.timeout ∉ rest := fun hm => hnm (List.mem_cons_of_mem e hm)
    cases e with
    | timeout => exact absurd (List.mem_cons_self _ _) hnm
    | errEv c m =>
      rw [List.foldl_cons, show step tms s (.errEv c m) = s by simp [step, hk]]
      exact ih s hk hne
    | closeEv o sE ec =>
      rw [List.foldl_cons, show step tms s (.closeEv o sE ec) = s by simp [step, hk]]
      exact ih s hk hne

/-- Every resolved settlement produced by the handlers comes from a close
event of the trace, with trimmed stdout, sanitized trimmed stderr and a
null exit code mapped to 0. -/
theorem resolved_settlement_from_close (tms : Nat) (tr : List ProcEvent) :
    ∀ (s : ExecState) (r : CommandResult),
      Settlement.resolved r ∈ (List.foldl (step tms) s tr).settlements →
      Settlement.resolved r ∈ s.settlements ∨
        ∃ out err ec, ProcEvent.closeEv out err ec ∈ tr ∧
          r = ⟨jsTrim out, sanitizeError (jsTrim err), ec.getD 0⟩ := by
  induction tr with
  | nil => intro s r h; exact Or.inl h
  | cons e rest ih =>
    intro s r h
    rw [List.foldl_cons] at h
    rcases ih (step tms s e) r h with hmem | ⟨out, err, ec, hin, hr⟩
    · cases e with
      | timeout =>
        simp only [step, List.mem_append, List.mem_singleton] at hmem
        rcases hmem with hs | hs
        · exact Or.inl hs
        · cases hs
      | errEv c m =>
        by_cases hk : s.killed = true
        · rw [show step tms s (.errEv c m) = s by simp [step, hk]] at hmem
          exact Or.inl hmem
        · rw [show step tms s (.errEv c m) =
              ⟨s.killed, s.killSent, s.settlements ++
                [.rejected (if c = some "ENOENT" then .cliNotFound
                  else .commandExecution (sanitizeError m) none)]⟩ by
              simp [step, hk]] at hmem
          simp only [List.mem_append, List.mem_singleton] at hmem
          rcases hmem with hs | hs
          · exact Or.inl hs
          · cases hs
      | closeEv out err ec =>
        by_cases hk : s.killed = true
        · rw [show step tms s (.closeEv out err ec) = s by simp [step, hk]] at hmem
          exact Or.inl hmem
        · rw [show step tms s (.closeEv out err ec) =
              ⟨s.killed, s.killSent, s.settlements ++
                [.resolved ⟨jsTrim out, sanitizeError (jsTrim err), ec.getD 0⟩]⟩ by
              simp [step, hk]] at hmem
          simp only [List.mem_append, List.mem_singleton] at hmem
          rcases hmem with hs | hs
          · exact Or.inl hs
          · exact Or.inr ⟨out, err, ec, List.mem_cons_self _ _, by injection hs⟩
    · exact Or.inr ⟨out, err, ec, List.mem_cons_of_mem e hin, hr⟩

/-- The full pipeline on a request whose child closes normally: the basic
executor spawns and resolves with the assembled result. -/
theorem exec_close_eq (cmd : String) (args : List String) (opts : ExecutionOptions)
    (w : World) (out err : String) (ec : Option Int)
    (hval : validateArgs args = .ok ())
    (htok : jsTruthyOpt
      (envGet (prepareEnvironment w.baseEnv opts.env w.config) "APPKNOX_ACCESS_TOKEN") = true)
    (htr : w.trace = [.closeEv out err ec]) :
    executeAppknoxCommand cmd args opts w =
      ⟨true, some (.ok ⟨jsTrim out, sanitizeError (jsTrim err), ec.getD 0⟩)⟩ := by
  unfold executeAppknoxCommand
  rw [hval, htr]
  simp only [htok, if_true, runTrace, List.foldl_cons, List.foldl_nil]
  rfl

/-! ## The claims -/

/-- C9: `validateNumericId` rejects (with a FilePathError-kind failure)
every value that is non-integer, zero, negative, or greater than 2^53 - 1,
and accepts exactly the strictly positive integers up to that bound. -/
theorem claim_C9_validateNumericId :
    maxSafeInteger = 2 ^ 53 - 1 ∧
    ∀ (id : Rat) (fieldName : String),
      (validateNumericId id fieldName = .ok () ↔
        (id.den = 1 ∧ 0 < id ∧ id ≤ maxSafeInteger)) ∧
      (validateNumericId id fieldName ≠ .ok () →
        validateNumericId id fieldName =
          .error (.filePathErr ("Invalid " ++ fieldName ++ ": must be a positive integer"))) := by
  refine ⟨by norm_num [maxSafeInteger], fun id fieldName => ⟨⟨?_, ?_⟩, ?_⟩⟩
  · intro h
    unfold validateNumericId at h
    by_cases hc : ¬ id.den = 1 ∨ id ≤ 0 ∨ maxSafeInteger < id
    · rw [if_pos hc] at h; cases h
    · push_neg at hc
      exact ⟨hc.1, hc.2.1, hc.2.2⟩
  · rintro ⟨h1, h2, h3⟩
    have hn : ¬ (¬ id.den = 1 ∨ id ≤ 0 ∨ maxSafeInteger < id) := by
      push_neg
      exact ⟨h1, h2, h3⟩
    unfold validateNumericId
    rw [if_neg hn]
  · intro h
    unfold validateNumericId at h ⊢
    by_cases hc : ¬ id.den = 1 ∨ id ≤ 0 ∨ maxSafeInteger < id
    · rw [if_pos hc]
    · rw [if_neg hc] at h
      exact absurd rfl h

/-- C9 witness: 3 is accepted as a numeric id. -/
theorem claim_C9_witness : validateNumericId 3 "project_id" = .ok () :=
  ((claim_C9_validateNumericId.2 3 "project_id").1).mpr ⟨by decide, by decide, by decide⟩

/-- C3: a path-like argument (beginning with "/", "./" or "../") containing
"..", a null byte, or more than 4096 characters makes the request fail with
a FilePathError and no child process is spawned; validation applies exactly
to the path-like arguments, so a request whose path-like arguments are all
valid passes the validation loop. -/
theorem claim_C3_pathValidation :
    (∀ p : String, validateFilePath p = .ok () ↔
      (containsSub p ".." = false ∧ containsSub p "\x00" = false ∧ p.length ≤ 4096)) ∧
    (∀ (cmd : String) (args : List String) (opts : ExecutionOptions) (w : World) (a : String),
      a ∈ args → isPathArg a = true →
      (containsSub a ".." = true ∨ containsSub a "\x00" = true ∨ a.length > 4096) →
      ∃ m, executeAppknoxCommand cmd args opts w =
        ⟨false, some (.error (.filePathErr m))⟩) ∧
    (∀ args : List String,
      (∀ a, a ∈ args → isPathArg a = true →
        containsSub a ".." = false ∧ containsSub a "\x00" = false ∧ a.length ≤ 4096) →
      validateArgs args = .ok ()) := by
  refine ⟨fun p => (validateFilePath_ok_iff p).1, ?_, ?_⟩
  · intro cmd args opts w a ha hpa hbad
    have hne : validateFilePath a ≠ .ok () := by
      intro hok
      obtain ⟨h1, h2, h3⟩ := (validateFilePath_ok_iff a).1.mp hok
      rcases hbad with hb | hb | hb
      · simp [h1] at hb
      · simp [h2] at hb
      · omega
    obtain ⟨m, hm⟩ := validateArgs_bad args ⟨a, ha, hpa, hne⟩
    refine ⟨m, ?_⟩
    unfold executeAppknoxCommand
    rw [hm]
  · intro args h
    exact validateArgs_ok args fun a ha hpa => (validateFilePath_ok_iff a).1.mpr (h a ha hpa)

/-- C3 witness: a traversal argument is rejected before spawning. -/
theorem claim_C3_witness :
    ∃ m, executeAppknoxCommand "upload" ["../etc/passwd"] ⟨none, none⟩ ⟨[], .absent, []⟩ =
      ⟨false, some (.error (.filePathErr m))⟩ :=
  claim_C3_pathValidation.2.1 "upload" ["../etc/passwd"] ⟨none, none⟩ ⟨[], .absent, []⟩
    "../etc/passwd" (by decide) (by decide) (Or.inl (by decide))

/-- C6: when the resolved environment carries no truthy access token after
overrides and the config-file fallback, the request fails with an
Authentication error and no child process is spawned. -/
theorem claim_C6_authBeforeSpawn :
    ∀ (cmd : String) (args : List String) (opts : ExecutionOptions) (w : World),
      validateArgs args = .ok () →
      jsTruthyOpt (envGet (prepareEnvironment w.baseEnv opts.env w.config)
        "APPKNOX_ACCESS_TOKEN") = false →
      executeAppknoxCommand cmd args opts w =
        ⟨false, some (.error (.authenticationErr none))⟩ := by
  intro cmd args opts w hval htok
  unfold executeAppknoxCommand
  rw [hval]
  simp only [htok, Bool.false_eq_true, if_false]

/-- C6 witness: empty environment and absent config file fail with
Authentication without spawning. -/
theorem claim_C6_witness :
    executeAppknoxCommand "projects" [] ⟨none, none⟩ ⟨[], .absent, []⟩ =
      ⟨false, some (.error (.authenticationErr none))⟩ :=
  claim_C6_authBeforeSpawn "projects" [] ⟨none, none⟩ ⟨[], .absent, []⟩ rfl rfl

/-- C7: credential resolution starts from the process environment with
caller overrides winning; when no truthy token results it falls back to the
config file, accepting the hyphenated spelling first and the underscored
one second; a missing, unreadable or malformed config file yields no token
and the resolver still returns an environment (without a token) instead of
failing. -/
theorem claim_C7_credentialResolution :
    (∀ (base u : Env) (cfg : ConfigFile),
      jsTruthyOpt (envGet (base ++ u) "APPKNOX_ACCESS_TOKEN") = true →
      prepareEnvironment base (some u) cfg = base ++ u) ∧
    (∀ (base u : Env) (k : String) (v : JsonVal),
      envGet u k = some v → envGet (base ++ u) k = some v) ∧
    (∀ (base u : Env) (cfg : ConfigFile),
      jsTruthyOpt (envGet (base ++ u) "APPKNOX_ACCESS_TOKEN") = false →
      jsTruthy (getAccessTokenFromConfig cfg) = true →
      prepareEnvironment base (some u) cfg =
        (base ++ u) ++ [("APPKNOX_ACCESS_TOKEN", getAccessTokenFromConfig cfg)]) ∧
    (∀ (base u : Env) (cfg : ConfigFile),
      jsTruthyOpt (envGet (base ++ u) "APPKNOX_ACCESS_TOKEN") = false →
      jsTruthy (getAccessTokenFromConfig cfg) = false →
      prepareEnvironment base (some u) cfg = base ++ u) ∧
    getAccessTokenFromConfig .absent = .null ∧
    getAccessTokenFromConfig .unreadable = .null ∧
    (∀ s : String, jsonParseStr s = none → getAccessTokenFromConfig (.content s) = .null) ∧
    (∀ (s : String) (v : JsonVal), jsonParseStr s = some v →
      jsTruthy (objGet v "access-token") = true →
      getAccessTokenFromConfig (.content s) = objGet v "access-token") ∧
    (∀ (s : String) (v : JsonVal), jsonParseStr s = some v →
      jsTruthy (objGet v "access-token") = false →
      jsTruthy (objGet v "access_token") = true →
      getAccessTokenFromConfig (.content s) = objGet v "access_token") := by
  refine ⟨?_, ?_, ?_, ?_, rfl, rfl, ?_, ?_, ?_⟩
  · intro base u cfg h
    unfold prepareEnvironment
    simp only [Option.getD_some, h, if_true]
  · intro base u k v h
    rw [envGet_append, h]
  · intro base u cfg h1 h2
    unfold prepareEnvironment
    simp only [Option.getD_some, h1, Bool.false_eq_true, if_false, h2, if_true]
  · intro base u cfg h1 h2
    unfold prepareEnvironment
    simp only [Option.getD_some, h1, Bool.false_eq_true, if_false, h2]
  · intro s h
    simp only [getAccessTokenFromConfig]
    rw [h]
  · intro s v h ht
    simp only [getAccessTokenFromConfig]
    rw [h]
    simp only [ht, if_true]
  · intro s v h h1 h2
    simp only [getAccessTokenFromConfig]
    rw [h]
    simp only [h1, Bool.false_eq_true, if_false, h2, if_true]

/-- C7 witness: a caller-supplied truthy token wins and no config fallback
happens. -/
theorem claim_C7_witness :
    prepareEnvironment [] (some [("APPKNOX_ACCESS_TOKEN", JsonVal.str "T")]) .absent =
      [("APPKNOX_ACCESS_TOKEN", JsonVal.str "T")] :=
  claim_C7_credentialResolution.1 [] [("APPKNOX_ACCESS_TOKEN", JsonVal.str "T")] .absent rfl

/-- C10: an access-token variable set to the empty string (in the base
environment, the overrides, or as the extracted config-file value) is falsy
and therefore treated as absent: the config fallback is still consulted,
and when it yields no truthy token the request fails with Authentication
before spawning. -/
theorem claim_C10_emptyToken :
    ∀ (cmd : String) (args : List String) (opts : ExecutionOptions) (w : World),
      validateArgs args = .ok () →
      envGet (w.baseEnv ++ opts.env.getD []) "APPKNOX_ACCESS_TOKEN" = some (.str "") →
      ((jsTruthy (getAccessTokenFromConfig w.config) = false →
        executeAppknoxCommand cmd args opts w =
          ⟨false, some (.error (.authenticationErr none))⟩) ∧
       (jsTruthy (getAccessTokenFromConfig w.config) = true →
        envGet (prepareEnvironment w.baseEnv opts.env w.config) "APPKNOX_ACCESS_TOKEN" =
          some (getAccessTokenFromConfig w.config)) ∧
       (∀ (s : String) (v : JsonVal), jsonParseStr s = some v →
        objGet v "access-token" = .str "" →
        getAccessTokenFromConfig (.content s) =
          (if jsTruthy (objGet v "access_token") then objGet v "access_token" else .null))) := by
  intro cmd args opts w hval htok
  have hfal0 : jsTruthyOpt (envGet (w.baseEnv ++ opts.env.getD []) "APPKNOX_ACCESS_TOKEN")
      = false := by rw [htok]; rfl
  refine ⟨?_, ?_, ?_⟩
  · intro hcfg
    have hprep : prepareEnvironment w.baseEnv opts.env w.config =
        w.baseEnv ++ opts.env.getD [] := by
      unfold prepareEnvironment
      simp only [hfal0, Bool.false_eq_true, if_false, hcfg]
    have hfal : jsTruthyOpt (envGet (prepareEnvironment w.baseEnv opts.env w.config)
        "APPKNOX_ACCESS_TOKEN") = false := by rw [hprep, htok]; rfl
    unfold executeAppknoxCommand
    rw [hval]
    simp only [hfal, Bool.false_eq_true, if_false]
  · intro hcfg
    have hprep : prepareEnvironment w.baseEnv opts.env w.config =
        (w.baseEnv ++ opts.env.getD []) ++
          [("APPKNOX_ACCESS_TOKEN", getAccessTokenFromConfig w.config)] := by
      unfold prepareEnvironment
      simp only [hfal0, Bool.false_eq_true, if_false, hcfg, if_true]
    rw [hprep, envGet_append_single]
  · intro s v h hv
    simp only [getAccessTokenFromConfig]
    rw [h]
    simp only [hv]
    rfl

/-- C10 witness: a base environment whose token is the empty string, with
no config file, fails with Authentication before spawning. -/
theorem claim_C10_witness :
    executeAppknoxCommand "projects" [] ⟨none, none⟩
      ⟨[("APPKNOX_ACCESS_TOKEN", JsonVal.str "")], .absent, []⟩ =
      ⟨false, some (.error (.authenticationErr none))⟩ :=
  (claim_C10_emptyToken "projects" [] ⟨none, none⟩
    ⟨[("APPKNOX_ACCESS_TOKEN", JsonVal.str "")], .absent, []⟩ rfl rfl).1 rfl

/-- C8: a request whose child closes normally resolves with an
ExecutionResult of trimmed stdout, sanitized trimmed stderr and the exit
code with null mapped to 0; the basic executor never raises on a non-zero
exit code. -/
theorem claim_C8_basicExecutor :
    ∀ (cmd : String) (args : List String) (opts : ExecutionOptions) (w : World)
      (out err : String) (ec : Option Int),
      validateArgs args = .ok () →
      jsTruthyOpt (envGet (prepareEnvironment w.baseEnv opts.env w.config)
        "APPKNOX_ACCESS_TOKEN") = true →
      w.trace = [.closeEv out err ec] →
      executeAppknoxCommand cmd args opts w =
        ⟨true, some (.ok ⟨jsTrim out, sanitizeError (jsTrim err), ec.getD 0⟩)⟩ ∧
      ∀ e : AppknoxMCPError,
        (executeAppknoxCommand cmd args opts w).settled ≠ some (.error e) := by
  intro cmd args opts w out err ec hval htok htr
  have h := exec_close_eq cmd args opts w out err ec hval htok htr
  refine ⟨h, fun e => ?_⟩
  rw [h]
  simp

/-- C8 witness: exit 0 with stdout "42" gives the result of the spec's
example, including for a non-zero variant the data-only surfacing. -/
theorem claim_C8_witness :
    executeAppknoxCommand "projects" [] ⟨some 120000, none⟩
      ⟨[("APPKNOX_ACCESS_TOKEN", JsonVal.str "token")], .absent,
        [.closeEv "42" "" (some 0)]⟩ =
      ⟨true, some (.ok ⟨"42", "", 0⟩)⟩ :=
  (claim_C8_basicExecutor "projects" [] ⟨some 120000, none⟩
    ⟨[("APPKNOX_ACCESS_TOKEN", JsonVal.str "token")], .absent,
      [.closeEv "42" "" (some 0)]⟩ "42" "" (some 0) rfl rfl rfl).1

/-- Shape of the strict variant over a spawned, resolved basic execution. -/
theorem strict_of_ok (cmd : String) (args : List String) (opts : ExecutionOptions)
    (w : World) (r : CommandResult)
    (hbase : executeAppknoxCommand cmd args opts w = ⟨true, some (.ok r)⟩) :
    executeAppknoxCommandStrict cmd args opts w =
      (true,
        if r.exitCode ≠ 0 then
          if containsSub (strictErrorMessage r) "401" ||
              containsSub (strictErrorMessage r) "Unauthorized" then
            some (.error (.authenticationErr none))
          else
            some (.error (.commandExecution ("Appknox CLI error: " ++ strictErrorMessage r)
              (some r.exitCode)))
        else some (.ok r.stdout)) := by
  simp only [executeAppknoxCommandStrict, hbase]

/-- C1 (amended): on non-zero exit the strict variant raises
ExecutionFailure carrying the exit code, unless the error message — the
sanitized trimmed stderr if non-empty, else the trimmed stdout, else
"Command failed" — contains "401" or "Unauthorized", in which case it
raises Authentication; on exit 0 it returns the trimmed stdout. -/
theorem claim_C1_strictVariant :
    ∀ (cmd : String) (args : List String) (opts : ExecutionOptions) (w : World)
      (out err : String) (ec : Option Int),
      validateArgs args = .ok () →
      jsTruthyOpt (envGet (prepareEnvironment w.baseEnv opts.env w.config)
        "APPKNOX_ACCESS_TOKEN") = true →
      w.trace = [.closeEv out err ec] →
      (ec.getD 0 = 0 →
        executeAppknoxCommandStrict cmd args opts w = (true, some (.ok (jsTrim out)))) ∧
      (∀ r : CommandResult,
        r = ⟨jsTrim out, sanitizeError (jsTrim err), ec.getD 0⟩ →
        r.exitCode ≠ 0 →
        ((containsSub (strictErrorMessage r) "401" ||
            containsSub (strictErrorMessage r) "Unauthorized") = true →
          executeAppknoxCommandStrict cmd args opts w =
            (true, some (.error (.authenticationErr none)))) ∧
        ((containsSub (strictErrorMessage r) "401" ||
            containsSub (strictErrorMessage r) "Unauthorized") = false →
          executeAppknoxCommandStrict cmd args opts w =
            (true, some (.error (.commandExecution
              ("Appknox CLI error: " ++ strictErrorMessage r) (some r.exitCode)))))) := by
  intro cmd args opts w out err ec hval htok htr
  have hbase := exec_close_eq cmd args opts w out err ec hval htok htr
  have hstrict := strict_of_ok cmd args opts w _ hbase
  constructor
  · intro hec
    rw [hstrict, if_neg (by simp [hec])]
  · intro r hr hne
    subst hr
    constructor
    · intro hcond
      rw [hstrict, if_pos hne, if_pos hcond]
    · intro hcond
      rw [hstrict, if_pos hne, if_neg (by simp [hcond])]

/-- C1 witness: exit 1 with stderr containing "401 Unauthorized" raises
Authentication in the strict variant. -/
theorem claim_C1_witness :
    executeAppknoxCommandStrict "scan" [] ⟨none, none⟩
      ⟨[("APPKNOX_ACCESS_TOKEN", JsonVal.str "t")], .absent,
        [.closeEv "" "401 Unauthorized" (some 1)]⟩ =
      (true, some (.error (.authenticationErr none))) :=
  ((((claim_C1_strictVariant "scan" [] ⟨none, none⟩
      ⟨[("APPKNOX_ACCESS_TOKEN", JsonVal.str "t")], .absent,
        [.closeEv "" "401 Unauthorized" (some 1)]⟩
      "" "401 Unauthorized" (some 1)) rfl rfl rfl).2
    ⟨jsTrim "", sanitizeError (jsTrim "401 Unauthorized"), (some 1).getD 0⟩
    rfl (by decide)).1 (by decide))

/-- C1 counterexample: exit 1, stdout "401", stderr "server error" — the
combined stdout/stderr contains "401", yet the strict variant raises
ExecutionFailure (it inspects `stderr || stdout`, not the combination), not
Authentication. -/
theorem claim_C1_counterexample :
    containsSub ("401" ++ "server error") "401" = true ∧
    executeAppknoxCommandStrict "scan" [] ⟨none, none⟩
      ⟨[("APPKNOX_ACCESS_TOKEN", JsonVal.str "t")], .absent,
        [.closeEv "401" "server error" (some 1)]⟩ =
      (true, some (.error (.commandExecution "Appknox CLI error: server error" (some 1)))) ∧
    AppknoxMCPError.commandExecution "Appknox CLI error: server error" (some 1) ≠
      .authenticationErr none :=
  ⟨rfl, rfl, by decide⟩

/-- C2 (amended): every ExecutionResult produced by the handlers has its
stderr field sanitized (and trimmed), while its stdout field is only
trimmed, not sanitized. -/
theorem claim_C2_stderrSanitized :
    ∀ (tms : Nat) (tr : List ProcEvent) (r : CommandResult),
      Settlement.resolved r ∈ (runTrace tms tr).settlements →
      ∃ out err ec, ProcEvent.closeEv out err ec ∈ tr ∧
        r.stderr = sanitizeError (jsTrim err) ∧ r.stdout = jsTrim out ∧
        r.exitCode = ec.getD 0 := by
  intro tms tr r h
  rcases resolved_settlement_from_close tms tr ⟨false, false, []⟩ r h with
    hmem | ⟨out, err, ec, hin, hr⟩
  · cases hmem
  · exact ⟨out, err, ec, hin, by rw [hr], by rw [hr], by rw [hr]⟩

/-- C2 witness: a resolved result traces back to its close event with
sanitized trimmed stderr. -/
theorem claim_C2_witness :
    ∃ out err ec,
      ProcEvent.closeEv out err ec ∈ [ProcEvent.closeEv "ok" " e " (some 2)] ∧
      ({ stdout := "ok", stderr := "e", exitCode := 2 } : CommandResult).stderr =
        sanitizeError (jsTrim err) ∧
      ({ stdout := "ok", stderr := "e", exitCode := 2 } : CommandResult).stdout = jsTrim out ∧
      ({ stdout := "ok", stderr := "e", exitCode := 2 } : CommandResult).exitCode = ec.getD 0 :=
  claim_C2_stderrSanitized 120000 [.closeEv "ok" " e " (some 2)]
    ⟨"ok", "e", 2⟩ (by decide)

/-- C2 counterexample: a 32-character hexadecimal stdout is returned
unsanitized (the sanitizer would have redacted it), refuting the claim that
both stdout and stderr are sanitized. -/
theorem claim_C2_counterexample :
    executeAppknoxCommand "scan" [] ⟨none, none⟩
      ⟨[("APPKNOX_ACCESS_TOKEN", JsonVal.str "t")], .absent,
        [.closeEv "aaaaaaaaaaaaaaaaaaaaaaaaaaaaaaaa" "" (some 0)]⟩ =
      ⟨true, some (.ok ⟨"aaaaaaaaaaaaaaaaaaaaaaaaaaaaaaaa", "", 0⟩)⟩ ∧
    sanitizeError "aaaaaaaaaaaaaaaaaaaaaaaaaaaaaaaa" = "[REDACTED]" ∧
    "aaaaaaaaaaaaaaaaaaaaaaaaaaaaaaaa" ≠ "[REDACTED]" :=
  ⟨rfl, rfl, by decide⟩

/-- C4: the default timeout is 120000 ms and 0 disables the timer; when the
armed timer fires before the process closes, the killed latch is set, the
termination signal is sent, and the request settles exactly once, with the
Timeout error — later error/close events are ignored and no ExecutionResult
is ever produced. -/
theorem claim_C4_timeoutRace :
    effTimeout ⟨none, none⟩ = 120000 ∧
    (∀ tr : List ProcEvent, ValidTrace 0 tr → ProcEvent.timeout ∉ tr) ∧
    (∀ (tms : Nat) (tr : List ProcEvent), 0 < tms → ValidTrace tms tr →
      ProcEvent.timeout ∈ tr →
      runTrace tms tr = ⟨true, true, [.rejected (.commandTimeout tms)]⟩) := by
  refine ⟨rfl, ?_, ?_⟩
  · rintro tr ⟨-, -, htg⟩
    exact timerGo_false_no_timeout tr (by simpa using htg)
  · rintro tms tr hpos ⟨-, -, htg⟩ hmem
    cases tr with
    | nil => cases hmem
    | cons e rest =>
      cases e with
      | errEv c m =>
        have hng : timerGo false rest = true := by simpa [timerGo] using htg
        rcases List.mem_cons.mp hmem with heq | hmem2
        · exact absurd heq.symm (by simp)
        · exact absurd hmem2 (timerGo_false_no_timeout rest hng)
      | closeEv o s2 ec =>
        have hng : timerGo false rest = true := by simpa [timerGo] using htg
        rcases List.mem_cons.mp hmem with heq | hmem2
        · exact absurd heq.symm (by simp)
        · exact absurd hmem2 (timerGo_false_no_timeout rest hng)
      | timeout =>
        have hng : timerGo false rest = true := by
          have h2 : (decide (0 < tms) && timerGo false rest) = true := htg
          simp only [Bool.and_eq_true, decide_eq_true_eq] at h2
          exact h2.2
        have hnm := timerGo_false_no_timeout rest hng
        unfold runTrace
        rw [List.foldl_cons]
        rw [show step tms ⟨false, false, []⟩ .timeout =
            ⟨true, true, [.rejected (.commandTimeout tms)]⟩ from rfl]
        exact foldl_step_killed tms rest _ rfl hnm

/-- C4 witness: a fired timer followed by a late close settles once with
Timeout; the close is ignored. -/
theorem claim_C4_witness :
    runTrace 120000 [ProcEvent.timeout, ProcEvent.closeEv "late" "" (some 0)] =
      ⟨true, true, [.rejected (.commandTimeout 120000)]⟩ :=
  claim_C4_timeoutRace.2.2 120000 [.timeout, .closeEv "late" "" (some 0)]
    (by decide) ⟨by decide, by decide, by decide⟩ (by decide)

/-- C5 (amended): `classifyError` applies its rules in the stated fixed
precedence with first match winning, with rule 1 guarded by the message
starting with "[" and containing the substring `"code"` (JSON parsing
affects only the formatting, which falls back to the raw message). -/
theorem claim_C5_classifierPrecedence :
    ∀ e : RawError, classifyError e = classifyErrorSpecAmended e := by
  intro e
  cases e <;> rfl

/-- C5 counterexample: a message with a leading space parses as a JSON
array containing a "code" field, so the claim's rule 1 classifies it as
Validation, but the code's startsWith guard fails and it falls through to
the generic ExecutionFailure. -/
theorem claim_C5_counterexample :
    jsonParseStr " [\x7b\"code\":1\x7d]" = some (.arr [.obj [("code", .num 1)]]) ∧
    classifyErrorSpecClaim (.plain " [\x7b\"code\":1\x7d]") =
      .validationErr "Missing or invalid arguments: unknown field: invalid value" ∧
    classifyError (.plain " [\x7b\"code\":1\x7d]") =
      .commandExecution " [\x7b\"code\":1\x7d]" none ∧
    classifyError (.plain " [\x7b\"code\":1\x7d]") ≠
      classifyErrorSpecClaim (.plain " [\x7b\"code\":1\x7d]") :=
  ⟨rfl, rfl, rfl, by decide⟩
